import Mathlib

/-!
Shallow embedding of the soil-moisture forecasting pipeline
(`data.processing.py` and `modeling.py`) and verification of the
specification's claims about it.

Modelling conventions:
* `float` values are modelled as `ℚ`; a pandas `NaN` cell is modelled as
  `none : Option ℚ` in the columns where missingness matters.
* Timestamps are minutes since the epoch (`Nat`); the data's sampling
  interval and pandas calendar accessors (`index.hour`, `index.dayofweek`)
  are derived from this count.
* All definitions are computable and follow the Python source line by line;
  doc comments cite the source location each definition embeds.
-/

namespace SoilMoisture

/-! ### Rolling windows (pandas `Series.rolling(window=w, center=True, min_periods=1)`)

`data.processing.py` lines 21-37: `apply_moving_average` and
`apply_median_filter` both use a centered rolling window with
`min_periods=1`, so boundary windows are partial (at least one sample). -/

/-- The centered local window of `s` at index `i` for window size `w`,
clipped at the boundaries exactly as pandas clips a centered rolling
window with `min_periods=1`: it covers source indices
`[i - (w-1)/2, i + w/2]` intersected with `[0, s.length - 1]`. -/
def localWindow (s : List ℚ) (w i : Nat) : List ℚ :=
  (s.drop (i - (w - 1) / 2)).take (i + w / 2 + 1 - (i - (w - 1) / 2))

/-- `data.processing.py` lines 21-28 (`apply_moving_average`): centered
rolling mean with partial boundary windows. -/
def applyMovingAverage (s : List ℚ) (w : Nat) : List ℚ :=
  (List.range s.length).map fun i =>
    let win := localWindow s w i
    win.sum / win.length

/-- The median of a list as pandas computes it: sort, then take the middle
element (odd length) or the mean of the two middle elements (even length). -/
def median (l : List ℚ) : ℚ :=
  let s := l.mergeSort (fun a b => a ≤ b)
  if l.length % 2 = 1 then s.getD (l.length / 2) 0
  else (s.getD (l.length / 2 - 1) 0 + s.getD (l.length / 2) 0) / 2

/-- `data.processing.py` lines 30-37 (`apply_median_filter`): centered
rolling median with partial boundary windows (`min_periods=1`). -/
def applyMedianFilter (s : List ℚ) (w : Nat) : List ℚ :=
  (List.range s.length).map fun i => median (localWindow s w i)

/-! ### Savitzky-Golay smoothing with fallback

`data.processing.py` lines 39-50: the call to `scipy.signal.savgol_filter`
is wrapped in `try/except`; on any failure the method prints
"Savitzky-Golay filter failed, using moving average instead" and returns
`apply_moving_average(column, window)`.  The numeric polynomial fit itself
is a pure kernel we keep as a parameter `fit`; scipy raises exactly when
the arguments are invalid for the fit: `polyorder >= window_length`, or
(default `mode='interp'`) `window_length > len(x)`. -/

/-- `scipy.signal.savgol_filter` as called on line 44-46: validates the
window/order/length constraints and otherwise applies the pure polynomial
fit `fit`. -/
def savgolFilter (fit : List ℚ → Nat → Nat → List ℚ) (s : List ℚ) (w p : Nat) :
    Except String (List ℚ) :=
  if w ≤ p then .error "polyorder must be less than window_length."
  else if s.length < w then
    .error "If mode is interp, window_length must be less than or equal to the size of x."
  else .ok (fit s w p)

/-- `data.processing.py` lines 39-50 (`apply_savitzky_golay`): returns the
emitted console messages together with the resulting column.  On fit
failure it prints the fallback message and returns the moving average of
the same column with the same window. -/
def applySavitzkyGolay (fit : List ℚ → Nat → Nat → List ℚ) (s : List ℚ) (w p : Nat) :
    List String × List ℚ :=
  match savgolFilter fit s w p with
  | .ok r => ([], r)
  | .error _ =>
      (["Savitzky-Golay filter failed, using moving average instead"],
        applyMovingAverage s w)

/-! ### Missing-value filling (`DataFrame.fillna`)

`data.processing.py` lines 88-90: after all features are computed,
`fillna(method='bfill')` then `fillna(method='ffill')`, column-wise. -/

/-- `fillna(method='bfill')` on one column: each missing cell takes the
value of the nearest subsequent non-missing cell, if any. -/
def bfill : List (Option ℚ) → List (Option ℚ)
  | [] => []
  | x :: xs =>
    let rest := bfill xs
    match x with
    | some v => some v :: rest
    | none => rest.headD none :: rest

/-- `fillna(method='ffill')` on one column, carrying the last seen value. -/
def ffillAux : Option ℚ → List (Option ℚ) → List (Option ℚ)
  | _, [] => []
  | last, x :: xs =>
    match x with
    | some v => some v :: ffillAux (some v) xs
    | none => last :: ffillAux last xs

/-- `fillna(method='ffill')` on one column: each missing cell takes the
value of the nearest preceding non-missing cell, if any. -/
def ffill (l : List (Option ℚ)) : List (Option ℚ) :=
  ffillAux none l

/-- The fill policy of `create_features` (lines 88-90): backward-fill
first, then forward-fill. -/
def fillMissing (l : List (Option ℚ)) : List (Option ℚ) :=
  ffill (bfill l)

/-! ### Feature construction (`create_features`, lines 71-92) -/

/-- `index.hour` for a timestamp counted in minutes since the epoch. -/
def hourOf (t : Nat) : Nat := t / 60 % 24

/-- `index.dayofweek` (Monday = 0) for a timestamp in minutes since the
epoch; 1970-01-01 was a Thursday (= 3). -/
def dayOfWeekOf (t : Nat) : Nat := (t / 1440 + 3) % 7

/-- `Series.diff()` (line 85): difference with the previous sample,
missing at index 0 and wherever either operand is missing. -/
def diffCol (l : List (Option ℚ)) : List (Option ℚ) :=
  (List.range l.length).map fun i =>
    match i with
    | 0 => none
    | k + 1 =>
      match l.getD k none, l.getD (k + 1) none with
      | some a, some b => some (b - a)
      | _, _ => none

/-- `Series.pct_change() * 100` (line 86); a zero previous value (division
blowup in pandas) is modelled as missing. -/
def pctChangeCol (l : List (Option ℚ)) : List (Option ℚ) :=
  (List.range l.length).map fun i =>
    match i with
    | 0 => none
    | k + 1 =>
      match l.getD k none, l.getD (k + 1) none with
      | some a, some b => if a = 0 then none else some ((b - a) / a * 100)
      | _, _ => none

/-- Trailing rolling mean with `min_periods=1` (lines 81-82): the mean of
the non-missing values among the last `w` samples, missing when all of
them are missing. -/
def rollingMeanTrailing (l : List (Option ℚ)) (w : Nat) : List (Option ℚ) :=
  (List.range l.length).map fun i =>
    let vs := ((l.take (i + 1)).drop (i + 1 - w)).filterMap id
    if vs.length = 0 then none else some (vs.sum / vs.length)

/-- The raw frame `create_features` runs on: a timestamp index plus the
telemetry columns. -/
structure RawFrame where
  ts : List Nat
  moisture : List (Option ℚ)
  temperature : List (Option ℚ)
  humidity : List (Option ℚ)

/-- The frame produced by `create_features`. -/
structure FeatFrame where
  ts : List Nat
  moisture : List (Option ℚ)
  temperature : List (Option ℚ)
  humidity : List (Option ℚ)
  hour : List Nat
  dayOfWeek : List Nat
  isDaytime : List Nat
  moisture6hMean : List (Option ℚ)
  moisture12hMean : List (Option ℚ)
  moistureChange : List (Option ℚ)
  moistureChangePct : List (Option ℚ)

/-- `data.processing.py` lines 71-92 (`create_features`): calendar
features from the index, two trailing rolling means (windows 12 and 24
samples), difference and percent-change features, then the column-wise
backward-fill / forward-fill pass over the whole frame (the integer
calendar columns contain no missing values, so the fill leaves them
unchanged). -/
def createFeatures (f : RawFrame) : FeatFrame :=
  let hour := f.ts.map hourOf
  { ts := f.ts
    moisture := fillMissing f.moisture
    temperature := fillMissing f.temperature
    humidity := fillMissing f.humidity
    hour := hour
    dayOfWeek := f.ts.map dayOfWeekOf
    isDaytime := hour.map fun h => if 6 ≤ h ∧ h ≤ 18 then 1 else 0
    moisture6hMean := fillMissing (rollingMeanTrailing f.moisture 12)
    moisture12hMean := fillMissing (rollingMeanTrailing f.moisture 24)
    moistureChange := fillMissing (diffCol f.moisture)
    moistureChangePct := fillMissing (pctChangeCol f.moisture) }

/-! ### Supervised-example construction (`modeling.py`, `prepare_data`, lines 33-65)

A row of the processed CSV as `prepare_data` sees it.  The target column
source (= `moisture_smooth` when present) is the one column whose
missingness drives `dropna`, so only it is an `Option`. -/

structure ObsRow where
  ts : Nat
  moisture : Option ℚ
  temperature : ℚ
  humidity : ℚ
  hour : ℚ
deriving DecidableEq

instance : Inhabited ObsRow := ⟨⟨0, none, 0, 0, 0⟩⟩

/-- One supervised example of `data_clean` (line 46): the original row
position `idx`, the row's feature fields, and the (valid) future target. -/
structure Example where
  idx : Nat
  ts : Nat
  moisture : Option ℚ
  temperature : ℚ
  humidity : ℚ
  hour : ℚ
  target : ℚ
deriving DecidableEq

instance : Inhabited Example := ⟨⟨0, 0, none, 0, 0, 0, 0⟩⟩

/-- `modeling.py` lines 33-65 (`prepare_data`): the target is the
moisture column shifted by `-forecast_hours*2` positions (line 43, the
hardcoded "30-min intervals" conversion), and rows whose shifted target is
missing are dropped (line 46).  The remaining rows, with their original
positions, are the example set behind `self.X` / `self.y`. -/
def prepareData (rows : List ObsRow) (forecastHours : Nat) : List Example :=
  (List.range rows.length).filterMap fun i =>
    match (rows.get? (i + 2 * forecastHours)).bind ObsRow.moisture with
    | none => none
    | some t =>
      let r := rows.getD i default
      some ⟨i, r.ts, r.moisture, r.temperature, r.humidity, r.hour, t⟩

/-! ### Sequence windows (`prepare_lstm_data`, lines 124-144) -/

/-- `modeling.py` lines 128-135: the sliding windows
`X_seq[i] = X[i:i+L]`, `y_seq[i] = y[i+L]`, taken over consecutive
positions of the example matrix with no contiguity check. -/
def prepareLstmData (ex : List Example) (L : Nat) : List (List Example × ℚ) :=
  (List.range (ex.length - L)).map fun i =>
    ((ex.drop i).take L, (ex.getD (i + L) default).target)

/-- `modeling.py` lines 137-142: `split_idx = int(len(X_seq) * 0.8)`;
first 80% of windows train, the rest test. -/
def lstmSplit {α : Type} (ws : List α) : List α × List α :=
  let splitIdx := ws.length * 8 / 10
  (ws.take splitIdx, ws.drop splitIdx)

/-- `sklearn.model_selection.train_test_split(..., test_size=f,
shuffle=False)` as called on lines 72-74: with a fractional `test_size`,
sklearn takes `ceil(n * f)` trailing samples as the test set and the
leading remainder as the training set. -/
def trainTestSplitNoShuffle {α : Type} (l : List α) (f : ℚ) : List α × List α :=
  let nTest := ⌈(l.length : ℚ) * f⌉.toNat
  (l.take (l.length - nTest), l.drop (l.length - nTest))

/-! ### Multi-step forecasting (`forecast_future`, lines 319-378) -/

/-- A feature vector as stored in `self.X`, in the column order fixed by
`prepare_data` (lines 48-57): index 0 is the (smoothed) moisture, then
temperature, humidity, hour, and the 6h rolling mean. -/
structure FeatVec where
  moisture : ℚ
  temperature : ℚ
  humidity : ℚ
  hour : ℚ
  m6h : ℚ
deriving DecidableEq

instance : Inhabited FeatVec := ⟨⟨0, 0, 0, 0, 0⟩⟩

/-- One iteration of the autoregressive loop (lines 332-340): predict
from the current window, copy the newest row, overwrite only its
moisture entry (`new_row[0] = pred`, line 338) — temperature, humidity,
hour and the rolling mean are carried over unchanged — then rotate the
window (`np.roll(..., -1)` + overwrite of the last slot), which drops the
oldest row and appends the synthetic row. -/
def forecastStep (model : List FeatVec → ℚ) (seq : List FeatVec) : List FeatVec :=
  let pred := model seq
  let newRow := { seq.getLastD default with moisture := pred }
  seq.drop 1 ++ [newRow]

/-- The predictions collected by `k` iterations of the loop on lines
332-340. -/
def forecastPreds (model : List FeatVec → ℚ) (seq : List FeatVec) : Nat → List ℚ
  | 0 => []
  | k + 1 => model seq :: forecastPreds model (forecastStep model seq) k

/-- `modeling.py` lines 319-378 (`forecast_future`): when no LSTM model
has been trained the method returns `None` (line 378); otherwise it seeds
the window with the last `L` feature rows (line 325), runs the
autoregressive loop for `hours_ahead * 2` iterations (line 332), and
pairs the predictions with timestamps spaced 30 minutes apart starting
30 minutes after the last observation (lines 343-348). -/
def forecastFuture (lstmModel : Option (List FeatVec → ℚ)) (X : List FeatVec)
    (L lastTs hoursAhead : Nat) : Option (List (Nat × ℚ)) :=
  match lstmModel with
  | none => none
  | some model =>
    let lastSequence := X.drop (X.length - L)
    let preds := forecastPreds model lastSequence (hoursAhead * 2)
    some ((List.range preds.length).map fun i => (lastTs + 30 * (i + 1), preds.getD i 0))

/-! ### The watering decision (`modeling.py` `__main__`, lines 417-426) -/

/-- Line 418: `watering_threshold = 30  # Example threshold` — a literal
constant in the script, not a configuration input. -/
def wateringThreshold : ℚ := 30

/-- Lines 419-426: `needs_watering = forecast.predicted_moisture.min() <
watering_threshold`; on alert, the trigger time is the timestamp at
`idxmin()` (the first row attaining the minimum). -/
def wateringDecision (forecast : List (Nat × ℚ)) : Bool × Option Nat :=
  match (forecast.map Prod.snd).min? with
  | none => (false, none)
  | some m =>
    if m < wateringThreshold then
      (true, (forecast.find? fun p => p.2 = m).map Prod.fst)
    else (false, none)

/-! ### Concrete test fixtures used by closed theorems below -/

/-- Nine 30-minute-spaced rows whose moisture is missing at positions 5
and 7; with `forecast_hours = 1` (shift 2) the `dropna` of `prepare_data`
removes the interior rows 3 and 5 as well as the trailing rows 7 and 8,
leaving examples at original positions 0, 1, 2, 4, 6. -/
def rows9 : List ObsRow :=
  [⟨0, some 50, 20, 60, 0⟩,
   ⟨30, some 51, 20, 60, 0⟩,
   ⟨60, some 52, 20, 60, 1⟩,
   ⟨90, some 53, 20, 60, 1⟩,
   ⟨120, some 54, 20, 60, 2⟩,
   ⟨150, none, 20, 60, 2⟩,
   ⟨180, some 56, 20, 60, 3⟩,
   ⟨210, none, 20, 60, 3⟩,
   ⟨240, some 58, 20, 60, 4⟩]

/-- 26 hourly (60-minute-spaced) observations with moisture equal to the
row position. -/
def hourlyRows : List ObsRow :=
  (List.range 26).map fun i => ⟨60 * i, some (i : ℚ), 20, 60, ((i % 24 : Nat) : ℚ)⟩

/-- Four 30-minute-spaced rows with no missing moisture: `dropna` removes
only the trailing rows lacking a valid future target. -/
def rows4 : List ObsRow :=
  [⟨0, some 50, 20, 60, 0⟩,
   ⟨30, some 51, 20, 60, 0⟩,
   ⟨60, some 52, 20, 60, 1⟩,
   ⟨90, some 53, 20, 60, 1⟩]

/-- A concrete stand-in for `self.lstm_model.predict`: predicts the
newest row's moisture minus 5. -/
def demoModel (s : List FeatVec) : ℚ := (s.getLastD default).moisture - 5

/-- A two-row window whose newest row was observed at 23:00 (hour
feature 23); the last observation timestamp is 23:30 (minute 1410), so
the first synthetic forecast point falls at 00:00 of the next day. -/
def demoSeq : List FeatVec := [⟨52, 21, 58, 22, 51⟩, ⟨50, 20, 60, 23, 50⟩]

/-- A three-row raw frame with one missing interior moisture value. -/
def demoRaw : RawFrame :=
  ⟨[0, 30, 60],
   [some 40, none, some 42],
   [some 20, some 20, some 20],
   [some 60, some 60, some 60]⟩

end SoilMoisture

namespace SoilMoisture

/-! ## Claims -/

/-- **C10.** If `forecast_future` is called before any sequence model has
been trained (`self.lstm_model` absent), it returns `None` rather than
raising or forecasting, for every `hours_ahead` argument (and any
predictor state). -/
theorem forecast_without_model_returns_none (X : List FeatVec)
    (L lastTs hoursAhead : Nat) :
    forecastFuture none X L lastTs hoursAhead = none := rfl

/-- **C9.** Forecast determinism: with the model, feature matrix, window
length, last timestamp and `hours_ahead` pairwise equal, two calls to
`forecast_future` produce identical output sequences — there is no
randomness at inference time in the embedded forecaster. -/
theorem forecast_future_deterministic
    (m m' : Option (List FeatVec → ℚ)) (X X' : List FeatVec)
    (L L' ts ts' h h' : Nat)
    (hm : m = m') (hX : X = X') (hL : L = L') (hts : ts = ts') (hh : h = h') :
    forecastFuture m X L ts h = forecastFuture m' X' L' ts' h' := by
  subst hm hX hL hts hh; rfl

/-- Witness for C9 at a concrete model, window and horizon. -/
theorem forecast_future_deterministic_witness :
    forecastFuture (some demoModel) demoSeq 2 1410 1 =
      forecastFuture (some demoModel) demoSeq 2 1410 1 :=
  forecast_future_deterministic (some demoModel) (some demoModel) demoSeq demoSeq
    2 2 1410 1410 1 1 rfl rfl rfl rfl rfl

/-- **C2** (code bug, evaluated at the failing input). One iteration of
the autoregressive loop on `demoSeq`: the synthetic row appended at the
back takes the prediction (50 - 5 = 45) as its moisture, holds
temperature (20), humidity (60) — but also holds the stale calendar
feature `hour = 23`, although the synthetic timestamp 1440 (= 00:00 of
the next day, 30 minutes after the last observation at minute 1410) has
hour 0; the oldest row is dropped, and a 2-hour horizon runs exactly
`2 * 2 = 4` iterations. The claim's recomputation of calendar fields
does not happen (`new_row` only overwrites index 0, line 338). -/
theorem forecast_loop_holds_stale_hour :
    forecastStep demoModel demoSeq =
      [⟨50, 20, 60, 23, 50⟩, ⟨45, 20, 60, 23, 50⟩]
    ∧ hourOf (1410 + 30) = 0
    ∧ (forecastStep demoModel demoSeq).length = demoSeq.length
    ∧ (forecastPreds demoModel demoSeq (2 * 2)).length = 2 * 2 := by
  refine ⟨?_, rfl, rfl, rfl⟩
  show demoSeq.drop 1 ++ [{ demoSeq.getLastD default with moisture := demoModel demoSeq }] = _
  norm_num [demoSeq, demoModel]

/-- **C3** (code bug, evaluated at the failing input). On 26 hourly
observations with `forecast_hours = 12`, the first supervised example
pairs the features at row 0 with the moisture of row 24 — a target 1440
minutes (24 wall-clock hours) ahead, not the requested 12 hours (720
minutes): line 43 shifts by `forecast_hours * 2` samples, hardcoding the
30-minute interval instead of deriving the step count from the actual
sampling interval. -/
theorem horizon_shift_hardcodes_interval :
    ((prepareData hourlyRows 12).getD 0 default).target
        = ((hourlyRows.getD 24 default).moisture).getD 0
    ∧ (hourlyRows.getD 24 default).ts - (hourlyRows.getD 0 default).ts = 1440
    ∧ ¬ (1440 = 12 * 60) := by
  refine ⟨?_, by decide, by decide⟩
  decide

/-- **C4** (counterexample). The claim quantifies over "every configured
threshold", but the script's decision tests the hardcoded constant 30
(line 418): on the one-point forecast `[(30, 35)]`, a configured
threshold of 40 would require `needs_watering = (35 < 40) = true`, yet
the script decides `false`. -/
theorem watering_threshold_not_configurable :
    ¬ (∀ (t : ℚ) (f : List (Nat × ℚ)) (m : ℚ),
        (f.map Prod.snd).min? = some m → (wateringDecision f).1 = decide (m < t)) := by
  intro h
  have h35 : (([(30, 35)] : List (Nat × ℚ)).map Prod.snd).min? = some 35 := by decide
  have := h 40 [(30, 35)] 35 h35
  simp [wateringDecision, wateringThreshold] at this
  exact absurd this (by norm_num)

/-- **C4** (amended). With the threshold fixed at the script's hardcoded
constant 30 (`wateringThreshold`), the decision satisfies
`needs_watering = (min of the predicted values < 30)`, and whenever a
trigger time is produced it is the timestamp of a forecast point
attaining that minimum (the first such point, via `idxmin`). -/
theorem watering_decision_rule (f : List (Nat × ℚ)) (m : ℚ)
    (hm : (f.map Prod.snd).min? = some m) :
    (wateringDecision f).1 = decide (m < wateringThreshold)
    ∧ ∀ tts, (wateringDecision f).2 = some tts →
        ∃ p ∈ f, p.1 = tts ∧ p.2 = m := by
  constructor
  · by_cases hlt : m < wateringThreshold <;> simp [wateringDecision, hm, hlt]
  · intro tts htts
    by_cases hlt : m < wateringThreshold
    · simp only [wateringDecision, hm, if_pos hlt, Option.map_eq_some'] at htts
      obtain ⟨p, hp, hfst⟩ := htts
      have hpm := @List.find?_some (Nat × ℚ) (fun q => decide (q.2 = m)) p f hp
      exact ⟨p, List.mem_of_find?_eq_some hp, hfst, of_decide_eq_true hpm⟩
    · simp [wateringDecision, hm, if_neg hlt] at htts

/-- **C1** (counterexample). On `rows9` (moisture missing at interior
positions 5 and 7) with `forecast_hours = 1` and window length 2,
`prepare_lstm_data` emits the window with original row positions
`[2, 4]`: it splices across the boundary where example 3 was dropped
for lacking a valid future target, so not every window consists of
consecutive, gap-free rows of the example set. -/
theorem windows_splice_across_dropped_rows :
    ¬ (∀ w ∈ prepareLstmData (prepareData rows9 1) 2,
        List.Chain' (fun a b => b = a + 1) (w.1.map Example.idx)) := by
  intro h
  have h2 : 2 < (prepareLstmData (prepareData rows9 1) 2).length := by decide
  have hmem : (prepareLstmData (prepareData rows9 1) 2).getD 2 default
      ∈ prepareLstmData (prepareData rows9 1) 2 := by
    rw [List.getD_eq_getElem _ _ h2]
    exact List.getElem_mem h2
  have hw := h _ hmem
  have hv : (((prepareLstmData (prepareData rows9 1) 2).getD 2 default).1.map Example.idx)
      = [2, 4] := by decide
  rw [hv, List.chain'_cons] at hw
  omega

/-- If `g` tags each kept index with itself, mapping the tag over the
`filterMap` is the `filter` of the keep condition. -/
theorem map_idx_filterMap (l : List Nat) (g : Nat → Option Example)
    (hg : ∀ i e, g i = some e → e.idx = i) :
    (l.filterMap g).map Example.idx = l.filter fun i => (g i).isSome := by
  induction l with
  | nil => rfl
  | cons x xs ih =>
    cases hx : g x with
    | none => simp [List.filterMap_cons, List.filter_cons, hx, ih]
    | some e => simp [List.filterMap_cons, List.filter_cons, hx, hg x e hx, ih]

/-- Filtering `range n` by an upper-bound cutoff yields a shorter range. -/
theorem filter_range_lt (n c : Nat) :
    (List.range n).filter (fun i => decide (i < c)) = List.range (min n c) := by
  induction n with
  | zero => simp
  | succ n ih =>
    rw [List.range_succ, List.filter_append, ih]
    by_cases h : n < c
    · have h1 : min n c = n := by omega
      have h2 : min (n + 1) c = n + 1 := by omega
      simp [h, h1, h2, List.range_succ]
    · have h1 : min n c = c := by omega
      have h2 : min (n + 1) c = c := by omega
      simp [h, h1, h2]

/-- When the moisture column is present at every probed position (all
positions from `2H` on), `dropna` removes exactly the trailing block and
the example set keeps the contiguous original positions
`0, …, n - 2H - 1`. -/
theorem prepareData_idx_of_no_interior_gap (rows : List ObsRow) (H : Nat)
    (hmo : ∀ j, j < rows.length → 2 * H ≤ j → ((rows.getD j default).moisture).isSome) :
    (prepareData rows H).map Example.idx = List.range (rows.length - 2 * H) := by
  unfold prepareData
  rw [map_idx_filterMap]
  · rw [List.filter_congr (q := fun i => decide (i < rows.length - 2 * H)) ?_,
      filter_range_lt, Nat.min_eq_right (Nat.sub_le _ _)]
    intro i hi
    have hi' : i < rows.length := List.mem_range.mp hi
    by_cases hc : i + 2 * H < rows.length
    · have hget : rows.get? (i + 2 * H) = some (rows.getD (i + 2 * H) default) := by
        rw [List.get?_eq_getElem?, List.getElem?_eq_getElem hc, List.getD_eq_getElem _ _ hc]
      have hs := hmo (i + 2 * H) hc (by omega)
      obtain ⟨v, hv⟩ := Option.isSome_iff_exists.mp hs
      have hlt : i < rows.length - 2 * H := by omega
      rw [hget]
      simp only [Option.some_bind]
      rw [hv]
      simp [hlt]
    · have hget : rows.get? (i + 2 * H) = none := by
        rw [List.get?_eq_getElem?, List.getElem?_eq_none (by omega)]
      have hlt : ¬ i < rows.length - 2 * H := by omega
      rw [hget]
      simp [Option.none_bind, hlt]
  · intro i e he
    revert he
    cases hmm : (rows.get? (i + 2 * H)).bind ObsRow.moisture with
    | none => simp
    | some t => intro he; cases he; rfl

/-- `range m` ascends in steps of one. -/
theorem chain'_succ_range (m : Nat) :
    List.Chain' (fun a b => b = a + 1) (List.range m) := by
  cases m with
  | zero => simp
  | succ n =>
    rw [List.chain'_range_succ]
    intro i _
    rfl

/-- **C1** (amended). Windows are L positionally consecutive rows of the
cleaned example set; they are gap-free runs of the original example set
whenever the only dropped rows are the trailing ones lacking a valid
future target (moisture present at every probed position) — the code
performs no contiguity check, so windows can splice when interior rows
are dropped (see the counterexample). -/
theorem windows_gap_free_when_drops_trailing (rows : List ObsRow) (H L : Nat)
    (hmo : ∀ j, j < rows.length → 2 * H ≤ j → ((rows.getD j default).moisture).isSome) :
    ∀ w ∈ prepareLstmData (prepareData rows H) L,
      List.Chain' (fun a b => b = a + 1) (w.1.map Example.idx) := by
  intro w hw
  unfold prepareLstmData at hw
  obtain ⟨i, _, rfl⟩ := List.mem_map.mp hw
  simp only
  rw [List.map_take, List.map_drop, prepareData_idx_of_no_interior_gap rows H hmo]
  exact ((chain'_succ_range _).drop i).take L

/-- Witness for C1 (amended) on `rows4`, a gap-free frame. -/
theorem windows_gap_free_when_drops_trailing_witness :
    (∀ j, j < rows4.length → 2 * 1 ≤ j → ((rows4.getD j default).moisture).isSome)
    ∧ (∀ w ∈ prepareLstmData (prepareData rows4 1) 2,
        List.Chain' (fun a b => b = a + 1) (w.1.map Example.idx)) :=
  ⟨by decide, windows_gap_free_when_drops_trailing rows4 1 2 (by decide)⟩

/-- Witness for C4 (amended) on a concrete two-point forecast whose
minimum 25 is below the threshold. -/
theorem watering_decision_rule_witness :
    (([(30, 40), (60, 25)] : List (Nat × ℚ)).map Prod.snd).min? = some 25
    ∧ ((wateringDecision [(30, 40), (60, 25)]).1 = decide ((25 : ℚ) < wateringThreshold)
      ∧ ∀ tts, (wateringDecision [(30, 40), (60, 25)]).2 = some tts →
          ∃ p ∈ ([(30, 40), (60, 25)] : List (Nat × ℚ)), p.1 = tts ∧ p.2 = 25) :=
  ⟨by decide, watering_decision_rule [(30, 40), (60, 25)] 25 (by decide)⟩

/-- **C8.** Both train/test splits are chronological with no shuffling:
they partition the list as a prefix (train) followed by a suffix (test),
and with strictly increasing timestamps every test timestamp is strictly
later than every train timestamp — for the linear regressor's
`train_test_split(..., shuffle=False)` with any fraction `f`, and for
the sequence regressor's 80/20 window split. -/
theorem chronological_split (ts : List Nat) (f : ℚ)
    (hs : ts.Pairwise (· < ·)) :
    (trainTestSplitNoShuffle ts f).1 ++ (trainTestSplitNoShuffle ts f).2 = ts
    ∧ (∀ a ∈ (trainTestSplitNoShuffle ts f).1,
        ∀ b ∈ (trainTestSplitNoShuffle ts f).2, a < b)
    ∧ (lstmSplit ts).1 ++ (lstmSplit ts).2 = ts
    ∧ (∀ a ∈ (lstmSplit ts).1, ∀ b ∈ (lstmSplit ts).2, a < b) := by
  have key : ∀ k, ∀ a ∈ ts.take k, ∀ b ∈ ts.drop k, a < b := by
    intro k
    exact (List.pairwise_append.mp (by rw [List.take_append_drop]; exact hs)).2.2
  exact ⟨List.take_append_drop _ _, key _, List.take_append_drop _ _, key _⟩

/-- Witness for C8 on five strictly increasing timestamps with
`test_size = 1/5`. -/
theorem chronological_split_witness :
    ([10, 20, 30, 40, 50] : List Nat).Pairwise (· < ·)
    ∧ ((trainTestSplitNoShuffle [10, 20, 30, 40, 50] (1/5)).1
          ++ (trainTestSplitNoShuffle [10, 20, 30, 40, 50] (1/5)).2 = [10, 20, 30, 40, 50]
      ∧ (∀ a ∈ (trainTestSplitNoShuffle [10, 20, 30, 40, 50] (1/5)).1,
          ∀ b ∈ (trainTestSplitNoShuffle [10, 20, 30, 40, 50] (1/5)).2, a < b)
      ∧ (lstmSplit [10, 20, 30, 40, 50]).1 ++ (lstmSplit [10, 20, 30, 40, 50]).2
          = [10, 20, 30, 40, 50]
      ∧ (∀ a ∈ (lstmSplit [10, 20, 30, 40, 50]).1,
          ∀ b ∈ (lstmSplit [10, 20, 30, 40, 50]).2, a < b)) :=
  ⟨by decide, chronological_split [10, 20, 30, 40, 50] (1/5) (by decide)⟩

/-- **C7.** When the Savitzky-Golay fit cannot run (series shorter than
the window, or order not below the window), `apply_savitzky_golay` does
not propagate the error: it emits the warning message and returns the
moving-average smoothing of the same column with the same window; when
the fit is valid it returns the fit's output with no message, so the
fit failure is the only locally recovered error. -/
theorem savgol_falls_back_to_moving_average
    (fit : List ℚ → Nat → Nat → List ℚ) (s : List ℚ) (w p : Nat)
    (h : s.length < w ∨ w ≤ p) :
    applySavitzkyGolay fit s w p =
      (["Savitzky-Golay filter failed, using moving average instead"],
        applyMovingAverage s w)
    ∧ ∀ (s' : List ℚ) (w' p' : Nat), p' < w' → w' ≤ s'.length →
        applySavitzkyGolay fit s' w' p' = ([], fit s' w' p') := by
  constructor
  · unfold applySavitzkyGolay savgolFilter
    rcases h with h | h
    · by_cases hwp : w ≤ p
      · simp [hwp]
      · simp [hwp, h]
    · simp [h]
  · intro s' w' p' h1 h2
    unfold applySavitzkyGolay savgolFilter
    simp [Nat.not_le.mpr h1, Nat.not_lt.mpr h2]

/-- Witness for C7: a two-sample series with window 5 triggers the
fallback. -/
theorem savgol_falls_back_to_moving_average_witness :
    (([(1 : ℚ), 2] : List ℚ).length < 5 ∨ 5 ≤ 2)
    ∧ applySavitzkyGolay (fun s _ _ => s) [(1 : ℚ), 2] 5 2 =
        (["Savitzky-Golay filter failed, using moving average instead"],
          applyMovingAverage [(1 : ℚ), 2] 5) :=
  ⟨Or.inl (by decide),
    (savgol_falls_back_to_moving_average (fun s _ _ => s) [(1 : ℚ), 2] 5 2
      (Or.inl (by decide))).1⟩

/-- A column containing a valid value backward-fills to a valid head. -/
theorem bfill_head_some {c : List (Option ℚ)} (hc : ∃ v : ℚ, some v ∈ c) :
    ∃ v t, bfill c = some v :: t := by
  induction c with
  | nil => obtain ⟨v, hv⟩ := hc; simp at hv
  | cons x xs ih =>
    obtain ⟨v, hv⟩ := hc
    cases x with
    | some w => exact ⟨w, bfill xs, rfl⟩
    | none =>
      have hx : some v ∈ xs := by simpa using hv
      obtain ⟨u, t, ht⟩ := ih ⟨v, hx⟩
      refine ⟨u, some u :: t, ?_⟩
      show (bfill xs).headD none :: bfill xs = _
      rw [ht]
      rfl

/-- Forward-filling behind a valid carried value yields no missing
cells. -/
theorem ffillAux_isSome_of_some :
    ∀ (l : List (Option ℚ)) (v : ℚ), ∀ x ∈ ffillAux (some v) l, x.isSome := by
  intro l
  induction l with
  | nil => intro v x hx; simp [ffillAux] at hx
  | cons y ys ih =>
    intro v x hx
    cases y with
    | some w =>
      rw [show ffillAux (some v) (some w :: ys) = some w :: ffillAux (some w) ys from rfl] at hx
      rcases List.mem_cons.mp hx with h | h
      · subst h; rfl
      · exact ih w x h
    | none =>
      rw [show ffillAux (some v) (none :: ys) = some v :: ffillAux (some v) ys from rfl] at hx
      rcases List.mem_cons.mp hx with h | h
      · subst h; rfl
      · exact ih v x h

/-- If a column has at least one valid value, the backward-then-forward
fill leaves no missing value. -/
theorem fillMissing_isSome (c : List (Option ℚ)) (hc : ∃ v : ℚ, some v ∈ c) :
    ∀ x ∈ fillMissing c, x.isSome := by
  obtain ⟨v, t, ht⟩ := bfill_head_some hc
  intro x hx
  unfold fillMissing ffill at hx
  rw [ht, show ffillAux none (some v :: t) = some v :: ffillAux (some v) t from rfl] at hx
  rcases List.mem_cons.mp hx with h | h
  · subst h; rfl
  · exact ffillAux_isSome_of_some t v x h

/-- Backward-fill commutes with dropping the head cell. -/
theorem bfill_getD_succ (x : Option ℚ) (xs : List (Option ℚ)) (i : Nat) :
    (bfill (x :: xs)).getD (i + 1) none = (bfill xs).getD i none := by
  cases x <;> rfl

/-- If the first valid cell of a column sits at position `m`, the
backward-filled column starts with its value. -/
theorem bfill_first_some :
    ∀ (xs : List (Option ℚ)) (m : Nat) (v : ℚ),
      xs.getD m none = some v → (∀ k, k < m → xs.getD k none = none) →
      (bfill xs).headD none = some v := by
  intro xs
  induction xs with
  | nil => intro m v hm _; rw [List.getD_nil] at hm; exact absurd hm (by simp)
  | cons y ys ih =>
    intro m v hm hk
    cases m with
    | zero =>
      rw [List.getD_cons_zero] at hm
      subst hm
      rfl
    | succ m' =>
      have h0 := hk 0 (Nat.succ_pos _)
      rw [List.getD_cons_zero] at h0
      subst h0
      rw [List.getD_cons_succ] at hm
      have hk' : ∀ k, k < m' → ys.getD k none = none := fun k hkk => by
        have := hk (k + 1) (by omega)
        rwa [List.getD_cons_succ] at this
      have hh := ih m' v hm hk'
      show ((bfill ys).headD none :: bfill ys).headD none = some v
      rw [List.headD_cons]
      exact hh

/-- A missing cell whose nearest subsequent valid cell holds `v` is
backward-filled with `v`. -/
theorem bfill_gap :
    ∀ (c : List (Option ℚ)) (i j : Nat) (v : ℚ), i < j →
      c.getD i none = none → c.getD j none = some v →
      (∀ k, i < k → k < j → c.getD k none = none) →
      (bfill c).getD i none = some v := by
  intro c
  induction c with
  | nil => intro i j v hij hi hj hk; rw [List.getD_nil] at hj; exact absurd hj (by simp)
  | cons x xs ih =>
    intro i j v hij hi hj hk
    cases i with
    | zero =>
      rw [List.getD_cons_zero] at hi
      subst hi
      obtain ⟨j', rfl⟩ : ∃ j', j = j' + 1 := ⟨j - 1, by omega⟩
      rw [List.getD_cons_succ] at hj
      have hk' : ∀ k, k < j' → xs.getD k none = none := fun k hkk => by
        have := hk (k + 1) (by omega) (by omega)
        rwa [List.getD_cons_succ] at this
      have hhead := bfill_first_some xs j' v hj hk'
      show ((bfill xs).headD none :: bfill xs).getD 0 none = some v
      rw [List.getD_cons_zero]
      exact hhead
    | succ i' =>
      obtain ⟨j', rfl⟩ : ∃ j', j = j' + 1 := ⟨j - 1, by omega⟩
      rw [List.getD_cons_succ] at hi hj
      rw [bfill_getD_succ]
      exact ih i' j' v (by omega) hi hj fun k h1 h2 => by
        have := hk (k + 1) (by omega) (by omega)
        rwa [List.getD_cons_succ] at this

/-- Forward-fill never overwrites a valid cell. -/
theorem ffillAux_getD_some :
    ∀ (l : List (Option ℚ)) (last : Option ℚ) (i : Nat) (v : ℚ),
      l.getD i none = some v → (ffillAux last l).getD i none = some v := by
  intro l
  induction l with
  | nil => intro last i v hi; rw [List.getD_nil] at hi; exact absurd hi (by simp)
  | cons x xs ih =>
    intro last i v hi
    cases i with
    | zero =>
      rw [List.getD_cons_zero] at hi
      subst hi
      rfl
    | succ i' =>
      rw [List.getD_cons_succ] at hi
      cases x with
      | some w =>
        show (some w :: ffillAux (some w) xs).getD (i' + 1) none = some v
        rw [List.getD_cons_succ]
        exact ih (some w) i' v hi
      | none =>
        show (last :: ffillAux last xs).getD (i' + 1) none = some v
        rw [List.getD_cons_succ]
        exact ih last i' v hi

/-- A missing cell with a later valid observation ends up holding the
nearest subsequent valid value: backward-fill runs first and wins. -/
theorem fillMissing_gap (c : List (Option ℚ)) (i j : Nat) (v : ℚ) (hij : i < j)
    (hi : c.getD i none = none) (hj : c.getD j none = some v)
    (hbetween : ∀ k, i < k → k < j → c.getD k none = none) :
    (fillMissing c).getD i none = some v :=
  ffillAux_getD_some _ none i v (bfill_gap c i j v hij hi hj hbetween)

/-- **C6.** `create_features` fills each column by backward-fill first,
then forward-fill (`fillMissing`); under that policy a column with at
least one valid value retains no missing value, and a missing cell with
at least one later valid observation receives the nearest subsequent
valid value (backward-fill precedence), regardless of earlier valid
values. -/
theorem create_features_fill_policy (f : RawFrame) :
    (createFeatures f).moisture = fillMissing f.moisture
    ∧ (∀ c : List (Option ℚ), (∃ v : ℚ, some v ∈ c) → ∀ x ∈ fillMissing c, x.isSome)
    ∧ (∀ (c : List (Option ℚ)) (i j : Nat) (v : ℚ), i < j →
        c.getD i none = none → c.getD j none = some v →
        (∀ k, i < k → k < j → c.getD k none = none) →
        (fillMissing c).getD i none = some v) :=
  ⟨rfl, fun c hc => fillMissing_isSome c hc,
    fun c i j v hij hi hj hb => fillMissing_gap c i j v hij hi hj hb⟩

/-- Witness for C6: on `demoRaw`'s moisture column the gap at position 1
is filled with the nearest subsequent observation 42 even though an
earlier observation 40 exists, and no missing value remains. -/
theorem create_features_fill_policy_witness :
    (createFeatures demoRaw).moisture = fillMissing demoRaw.moisture
    ∧ (∀ x ∈ fillMissing demoRaw.moisture, x.isSome)
    ∧ (fillMissing demoRaw.moisture).getD 1 none = some 42 :=
  ⟨(create_features_fill_policy demoRaw).1,
    (create_features_fill_policy demoRaw).2.1 demoRaw.moisture ⟨40, by simp [demoRaw]⟩,
    (create_features_fill_policy demoRaw).2.2 demoRaw.moisture 1 2 42 (by omega)
      (by simp [demoRaw]) (by simp [demoRaw]) (fun k h1 h2 => by omega)⟩

/-- The list minimum bounds every member from below. -/
theorem min?_le_mem {l : List ℚ} {m x : ℚ} (h : l.min? = some m) (hx : x ∈ l) :
    m ≤ x :=
  (List.le_min?_iff (fun _ _ _ => le_min_iff) h).mp le_rfl x hx

/-- The list maximum bounds every member from above. -/
theorem mem_le_max? {l : List ℚ} {M x : ℚ} (h : l.max? = some M) (hx : x ∈ l) :
    x ≤ M :=
  (List.max?_le_iff (fun _ _ _ => max_le_iff) h).mp le_rfl x hx

/-- Each in-range cell of the sorted copy of `l` is a member of `l`. -/
theorem mergeSort_getD_mem (l : List ℚ) (k : Nat) (hk : k < l.length) :
    (l.mergeSort fun a b => a ≤ b).getD k 0 ∈ l := by
  have hk' : k < (l.mergeSort fun a b => a ≤ b).length := by
    rw [List.length_mergeSort]; exact hk
  rw [List.getD_eq_getElem _ _ hk']
  exact List.mem_mergeSort.mp (List.getElem_mem hk')

/-- The median of a nonempty list lies between its minimum and maximum. -/
theorem median_bounds {l : List ℚ} {m M : ℚ} (hne : l ≠ [])
    (hm : l.min? = some m) (hM : l.max? = some M) :
    m ≤ median l ∧ median l ≤ M := by
  have hlen : 0 < l.length := List.length_pos.mpr hne
  by_cases hpar : l.length % 2 = 1
  · have hb := mergeSort_getD_mem l (l.length / 2) (by omega)
    simp only [median, if_pos hpar]
    exact ⟨min?_le_mem hm hb, mem_le_max? hM hb⟩
  · have h2 : 2 ≤ l.length := by omega
    have ha := mergeSort_getD_mem l (l.length / 2 - 1) (by omega)
    have hb := mergeSort_getD_mem l (l.length / 2) (by omega)
    simp only [median, if_neg hpar]
    constructor
    · have g1 := min?_le_mem hm ha
      have g2 := min?_le_mem hm hb
      linarith
    · have g1 := mem_le_max? hM ha
      have g2 := mem_le_max? hM hb
      linarith

/-- The centered local window at an in-range index is nonempty: pandas'
`min_periods=1` guarantees at least the center sample. -/
theorem localWindow_ne_nil (s : List ℚ) (w i : Nat) (hi : i < s.length) :
    localWindow s w i ≠ [] := by
  apply List.ne_nil_of_length_pos
  simp only [localWindow, List.length_take, List.length_drop]
  omega

/-- Reading a mapped range at an in-range position applies the map. -/
theorem getD_map_range {α : Type} (f : Nat → α) (d : α) (n i : Nat) (hi : i < n) :
    ((List.range n).map f).getD i d = f i := by
  have hl : i < ((List.range n).map f).length := by simpa using hi
  rw [List.getD_eq_getElem _ _ hl, List.getElem_map, List.getElem_range]

/-- **C5.** For every series and every odd window, the median filter
returns a series of the same length, and at every index the output lies
between the minimum and the maximum of the centered (possibly partial,
at least one sample) local window at that index. -/
theorem median_filter_bounds (s : List ℚ) (W : Nat) (hW : Odd W) :
    (applyMedianFilter s W).length = s.length
    ∧ ∀ i, i < s.length → ∀ m M,
        (localWindow s W i).min? = some m →
        (localWindow s W i).max? = some M →
        m ≤ (applyMedianFilter s W).getD i 0
          ∧ (applyMedianFilter s W).getD i 0 ≤ M := by
  constructor
  · simp [applyMedianFilter]
  · intro i hi m M hm hM
    have hne := localWindow_ne_nil s W i hi
    have hb := median_bounds hne hm hM
    rw [applyMedianFilter, getD_map_range _ _ _ _ hi]
    exact hb

/-- Witness for C5 on the series `[3, 1, 4]` with window 3: the value at
index 1 lies within the local window's extrema 1 and 4. -/
theorem median_filter_bounds_witness :
    Odd 3
    ∧ (1 : Nat) < ([(3 : ℚ), 1, 4] : List ℚ).length
    ∧ (localWindow [(3 : ℚ), 1, 4] 3 1).min? = some 1
    ∧ (localWindow [(3 : ℚ), 1, 4] 3 1).max? = some 4
    ∧ (applyMedianFilter [(3 : ℚ), 1, 4] 3).length = ([(3 : ℚ), 1, 4] : List ℚ).length
    ∧ ((1 : ℚ) ≤ (applyMedianFilter [(3 : ℚ), 1, 4] 3).getD 1 0
        ∧ (applyMedianFilter [(3 : ℚ), 1, 4] 3).getD 1 0 ≤ 4) :=
  ⟨⟨1, by omega⟩, by decide, by decide, by decide,
    (median_filter_bounds [(3 : ℚ), 1, 4] 3 ⟨1, by omega⟩).1,
    (median_filter_bounds [(3 : ℚ), 1, 4] 3 ⟨1, by omega⟩).2 1 (by decide) 1 4
      (by decide) (by decide)⟩

end SoilMoisture
